import Mathlib

/-!
Verification of the OpenBCI WiFi Shield to virtual COM bridge (bridge.js).

The development shallowly embeds the core of bridge.js:
- the command aggregator feedCmdBytes / singleCharCmd (serial bytes to tokens),
- the TCP frame reassembler processTcpBuffer (byte stream to 33-byte frames),
- the serial sink and flow coordinator writeToSerial / drain / close handlers,
- the ingest pipeline coupling the reassembler to the serial sink,
- the promise-chain command queue queueCmd / cmdQ,
- the HTTP command sender sendShieldCommand with its text/plain fallback,
- the stream lifecycle sequence startStream and the trigger-byte scan.

Bytes are modelled as natural numbers, buffers as lists, asynchronous
completions as explicit oracles (outcome and duration functions), and the
process-wide mutable statistics as an explicit state record.
-/

namespace Bridge

/-! ## Command Tokenizer (bridge.js lines 216-286) -/

/-- Byte values of a text, as the serial layer delivers them (each byte is
mapped through String.fromCharCode in the source). -/
def strBytes (s : String) : List Nat := s.toList.map Char.toNat

/-- Single-character command set, from the singleCharCmd Set in bridge.js. -/
def singleCharCmd : List String :=
  ["b", "s", "v", "?", "~", "0", "1", "2", "3", "4", "5", "6", "7", "8", "9",
   "!", "@", "#", "$", "%", "^", "&", "*", "(", ")", "<", ">", ",", "."]

/-- Whitespace class of the JavaScript trim operation, restricted to the code
points a byte-oriented serial stream can produce. -/
def jsWhitespace (c : Char) : Bool :=
  c = ' ' ∨ c = '\t' ∨ c = '\n' ∨ c = '\r' ∨ c.toNat = 11 ∨ c.toNat = 12 ∨ c.toNat = 160

/-- Trim of the JavaScript String.prototype.trim call used on cmdBuf: drop
whitespace from both ends. -/
def jsTrim (s : String) : String :=
  String.mk (((s.data.dropWhile jsWhitespace).reverse.dropWhile jsWhitespace).reverse)

/-- Processing of one serial byte by the command aggregator: the body of the
for-loop in feedCmdBytes (bridge.js lines 254-285). Returns the new cmdBuf
accumulator and the tokens handed to queueCmd by this byte. -/
def feedCmdByte (cmdBuf : String) (byte : Nat) : String × List String :=
  if byte = 0 then (cmdBuf, [])
  else
    let ch := Char.ofNat byte
    let buf1 := cmdBuf.push ch
    if ch = '\n' ∨ ch = '\r' then
      let cmd := jsTrim buf1
      ("", if cmd = "" then [] else [cmd])
    else if buf1.length = 1 ∧ buf1 ∈ singleCharCmd then
      ("", [buf1])
    else if ch = 'X' ∨ ch = 'Z' then
      let cmd := jsTrim buf1
      ("", if cmd = "" then [] else [cmd])
    else if 256 < buf1.length then
      ("", [])
    else (buf1, [])

/-- feedCmdBytes from bridge.js: fold the per-byte step over a chunk, starting
from the given accumulator, collecting emitted tokens in order. -/
def feedCmdBytes (cmdBuf : String) (bytes : List Nat) : String × List String :=
  bytes.foldl
    (fun st b =>
      let r := feedCmdByte st.1 b
      (r.1, st.2 ++ r.2))
    (cmdBuf, [])

/-! ## Frame Reassembler (bridge.js lines 313-339)

The while loop of processTcpBuffer is split into a step function (one loop
iteration) and a loop runner. tcpBuffer is the `buf` component of the result;
frames lists the frames handed to writeToSerial, framesOk and framesBad the
increments of stats.tcpFramesOk and stats.tcpFramesBad. -/

/-- Buffer.indexOf of the source, returning the index of the first occurrence
of the value, if any. -/
def bufIndexOf (v : Nat) : List Nat → Option Nat
  | [] => none
  | x :: xs => if x = v then some 0 else (bufIndexOf v xs).map (· + 1)

/-- Result of one reassembly pass: emitted frames, counter increments, and the
residual buffer. -/
structure TcpResult where
  frames : List (List Nat)
  framesOk : Nat
  framesBad : Nat
  buf : List Nat
deriving Repr, DecidableEq

/-- Outcome of one iteration of the while loop in processTcpBuffer. -/
inductive TcpStep where
  | needMore
  | clearAll
  | skipTo (rest : List Nat)
  | badFrame (rest : List Nat)
  | goodFrame (frame rest : List Nat)
deriving Repr, DecidableEq

/-- Body of one iteration of the while loop in processTcpBuffer (bridge.js
lines 314-338): needMore when fewer than 33 bytes are buffered; on a non-sync
head, clearAll when no sync marker exists, else skip to the first marker; on a
sync head, reject the candidate (dropping one byte) when the stop byte's high
nibble is not 0xC, else emit the 33-byte frame. The inner length recheck of
source line 325 is kept although the loop guard makes it unreachable. -/
def tcpStepFn (buf : List Nat) : TcpStep :=
  if 33 ≤ buf.length then
    if buf.headI ≠ 0xa0 then
      match bufIndexOf 0xa0 buf with
      | none => .clearAll
      | some idx => .skipTo (buf.drop idx)
    else if buf.length < 33 then .needMore
    else
      let frame := buf.take 33
      if frame.getD 32 0 &&& 0xf0 = 0xc0 then .goodFrame frame (buf.drop 33)
      else .badFrame (buf.drop 1)
  else .needMore

/-- Loop runner for processTcpBuffer, with explicit fuel. Each productive step
shortens the buffer, so fuel equal to the buffer length always suffices. -/
def processAux : Nat → List Nat → TcpResult
  | 0, buf => ⟨[], 0, 0, buf⟩
  | fuel + 1, buf =>
    match tcpStepFn buf with
    | .needMore => ⟨[], 0, 0, buf⟩
    | .clearAll => ⟨[], 0, 0, []⟩
    | .skipTo rest => processAux fuel rest
    | .badFrame rest =>
      let p := processAux fuel rest
      ⟨p.frames, p.framesOk, p.framesBad + 1, p.buf⟩
    | .goodFrame frame rest =>
      let p := processAux fuel rest
      ⟨frame :: p.frames, p.framesOk + 1, p.framesBad, p.buf⟩

/-- processTcpBuffer from bridge.js: run the loop to completion on a buffer. -/
def processTcpBuffer (buf : List Nat) : TcpResult :=
  processAux buf.length buf

/-- Ingest of one TCP chunk as done by the socket data handler (bridge.js
lines 349-357): append the chunk to the buffered bytes and reassemble. -/
def ingest (bufState chunk : List Nat) : TcpResult :=
  processTcpBuffer (bufState ++ chunk)

/-! ### Reassembler lemmas -/

theorem bufIndexOf_some_lt {v : Nat} : ∀ {l : List Nat} {i : Nat},
    bufIndexOf v l = some i → i < l.length := by
  intro l
  induction l with
  | nil => intro i h; simp [bufIndexOf] at h
  | cons x xs ih =>
    intro i h
    simp only [bufIndexOf] at h
    split at h
    · simp only [Option.some.injEq] at h
      simp [← h]
    · cases hi : bufIndexOf v xs with
      | none => rw [hi] at h; simp at h
      | some j =>
        rw [hi] at h
        simp only [Option.map, Option.some.injEq] at h
        have := ih hi
        simp only [List.length_cons]
        omega

theorem bufIndexOf_cons_ne {v x : Nat} (xs : List Nat) (hx : ¬ x = v) :
    bufIndexOf v (x :: xs) = (bufIndexOf v xs).map (· + 1) := by
  simp [bufIndexOf, hx]

theorem bufIndexOf_eq_none_iff {v : Nat} : ∀ {l : List Nat}, bufIndexOf v l = none ↔ v ∉ l := by
  intro l
  induction l with
  | nil => simp [bufIndexOf]
  | cons x xs ih =>
    by_cases hx : x = v
    · simp [bufIndexOf, hx]
    · rw [bufIndexOf_cons_ne xs hx]
      cases hi : bufIndexOf v xs <;>
        simp_all [Option.map]
      exact fun hv => hx hv.symm

theorem bufIndexOf_pos {v : Nat} {l : List Nat} (hne : ¬ l.headI = v) {i : Nat}
    (h : bufIndexOf v l = some i) : 0 < i := by
  cases l with
  | nil => simp [bufIndexOf] at h
  | cons x xs =>
    rw [bufIndexOf_cons_ne xs (by simpa using hne)] at h
    cases hj : bufIndexOf v xs with
    | none => rw [hj] at h; simp [Option.map] at h
    | some j => rw [hj] at h; simp only [Option.map, Option.some.injEq] at h; omega

theorem bufIndexOf_head {v : Nat} {l : List Nat} (hl : l ≠ []) (h : l.headI = v) :
    bufIndexOf v l = some 0 := by
  cases l with
  | nil => exact absurd rfl hl
  | cons x xs => simp only [List.headI] at h; simp [bufIndexOf, h]

theorem bufIndexOf_append_some {v : Nat} :
    ∀ {u : List Nat} {i : Nat}, bufIndexOf v u = some i →
      ∀ (b : List Nat), bufIndexOf v (u ++ b) = some i := by
  intro u
  induction u with
  | nil => intro i h; simp [bufIndexOf] at h
  | cons x xs ih =>
    intro i h b
    by_cases hx : x = v
    · simp [bufIndexOf, hx] at h ⊢; exact h
    · rw [bufIndexOf_cons_ne xs hx] at h
      rw [List.cons_append, bufIndexOf_cons_ne _ hx]
      cases hj : bufIndexOf v xs with
      | none => rw [hj] at h; simp [Option.map] at h
      | some j =>
        rw [hj] at h
        rw [ih hj b]
        simpa using h

theorem bufIndexOf_append_none {v : Nat} :
    ∀ {u : List Nat}, bufIndexOf v u = none →
      ∀ (b : List Nat), bufIndexOf v (u ++ b) = (bufIndexOf v b).map (· + u.length) := by
  intro u
  induction u with
  | nil => intro _ b; simp [Option.map]
    <;> cases bufIndexOf v b <;> simp [Option.map]
  | cons x xs ih =>
    intro h b
    by_cases hx : x = v
    · simp [bufIndexOf, hx] at h
    · rw [bufIndexOf_cons_ne xs hx] at h
      rw [List.cons_append, bufIndexOf_cons_ne _ hx]
      cases hj : bufIndexOf v xs with
      | some j => rw [hj] at h; simp [Option.map] at h
      | none =>
        rw [ih hj b]
        cases bufIndexOf v b <;> simp [Option.map, List.length_cons] <;> omega

theorem tcpStepFn_lt {buf : List Nat} (h : buf.length < 33) : tcpStepFn buf = .needMore := by
  unfold tcpStepFn
  rw [if_neg (by omega)]

theorem tcpStepFn_skip {buf : List Nat} (h33 : 33 ≤ buf.length) (hh : buf.headI ≠ 0xa0)
    {idx : Nat} (hidx : bufIndexOf 0xa0 buf = some idx) :
    tcpStepFn buf = .skipTo (buf.drop idx) := by
  unfold tcpStepFn
  rw [if_pos h33, if_pos hh, hidx]

theorem tcpStepFn_clear {buf : List Nat} (h33 : 33 ≤ buf.length) (hh : buf.headI ≠ 0xa0)
    (hidx : bufIndexOf 0xa0 buf = none) :
    tcpStepFn buf = .clearAll := by
  unfold tcpStepFn
  rw [if_pos h33, if_pos hh, hidx]

theorem tcpStepFn_good {buf : List Nat} (h33 : 33 ≤ buf.length) (hh : buf.headI = 0xa0)
    (hstop : (buf.take 33).getD 32 0 &&& 0xf0 = 0xc0) :
    tcpStepFn buf = .goodFrame (buf.take 33) (buf.drop 33) := by
  unfold tcpStepFn
  rw [if_pos h33, if_neg (by simp [hh]), if_neg (by omega), if_pos hstop]

theorem tcpStepFn_bad {buf : List Nat} (h33 : 33 ≤ buf.length) (hh : buf.headI = 0xa0)
    (hstop : ¬ ((buf.take 33).getD 32 0 &&& 0xf0 = 0xc0)) :
    tcpStepFn buf = .badFrame (buf.drop 1) := by
  unfold tcpStepFn
  rw [if_pos h33, if_neg (by simp [hh]), if_neg (by omega), if_neg hstop]

theorem length_of_needMore {buf : List Nat} (h : tcpStepFn buf = .needMore) :
    buf.length < 33 := by
  unfold tcpStepFn at h
  split at h
  · split at h
    · split at h <;> simp_all
    · split at h
      · omega
      · dsimp only at h
        split at h <;> simp_all
  · omega

theorem length_lt_of_skip {buf r : List Nat} (h : tcpStepFn buf = .skipTo r) :
    r.length < buf.length := by
  unfold tcpStepFn at h
  split at h
  case isFalse => simp_all
  rename_i h33
  split at h
  · rename_i hh
    split at h
    · simp_all
    · rename_i idx hidx
      simp only [TcpStep.skipTo.injEq] at h
      subst h
      have hpos := bufIndexOf_pos hh hidx
      rw [List.length_drop]
      omega
  · split at h
    · simp_all
    · dsimp only at h
      split at h <;> simp_all

theorem length_lt_of_bad {buf r : List Nat} (h : tcpStepFn buf = .badFrame r) :
    r.length < buf.length := by
  unfold tcpStepFn at h
  split at h
  case isFalse => simp_all
  rename_i h33
  split at h
  · split at h <;> simp_all
  · split at h
    · simp_all
    · dsimp only at h
      split at h
      · simp_all
      · simp only [TcpStep.badFrame.injEq] at h
        subst h
        rw [List.length_drop]
        omega

theorem length_lt_of_good {buf f r : List Nat} (h : tcpStepFn buf = .goodFrame f r) :
    r.length < buf.length := by
  unfold tcpStepFn at h
  split at h
  case isFalse => simp_all
  rename_i h33
  split at h
  · split at h <;> simp_all
  · split at h
    · simp_all
    · dsimp only at h
      split at h
      · simp only [TcpStep.goodFrame.injEq] at h
        obtain ⟨-, h⟩ := h
        subst h
        rw [List.length_drop]
        omega
      · simp_all

theorem processAux_congr : ∀ (f1 f2 : Nat) (buf : List Nat),
    buf.length ≤ f1 → buf.length ≤ f2 → processAux f1 buf = processAux f2 buf := by
  intro f1
  induction f1 with
  | zero =>
    intro f2 buf h1 h2
    have hbuf : buf = [] := List.length_eq_zero.mp (by omega)
    subst hbuf
    cases f2 with
    | zero => rfl
    | succ m => simp [processAux, tcpStepFn]
  | succ n ih =>
    intro f2 buf h1 h2
    cases f2 with
    | zero =>
      have hbuf : buf = [] := List.length_eq_zero.mp (by omega)
      subst hbuf
      simp [processAux, tcpStepFn]
    | succ m =>
      simp only [processAux]
      cases hs : tcpStepFn buf with
      | needMore => rfl
      | clearAll => rfl
      | skipTo r =>
        have := length_lt_of_skip hs
        exact ih m r (by omega) (by omega)
      | badFrame r =>
        have := length_lt_of_bad hs
        dsimp only
        rw [ih m r (by omega) (by omega)]
      | goodFrame f r =>
        have := length_lt_of_good hs
        dsimp only
        rw [ih m r (by omega) (by omega)]

theorem processTcpBuffer_needMore {buf : List Nat} (h : tcpStepFn buf = .needMore) :
    processTcpBuffer buf = ⟨[], 0, 0, buf⟩ := by
  unfold processTcpBuffer
  cases hl : buf.length with
  | zero => simp [processAux]
  | succ n => simp only [processAux]; rw [h]

theorem processTcpBuffer_clear {buf : List Nat} (h : tcpStepFn buf = .clearAll) :
    processTcpBuffer buf = ⟨[], 0, 0, []⟩ := by
  unfold processTcpBuffer
  cases hl : buf.length with
  | zero =>
    exfalso
    have hbuf : buf = [] := List.length_eq_zero.mp hl
    subst hbuf
    simp [tcpStepFn] at h
  | succ n => simp only [processAux]; rw [h]

theorem processTcpBuffer_skip {buf r : List Nat} (h : tcpStepFn buf = .skipTo r) :
    processTcpBuffer buf = processTcpBuffer r := by
  have hlt := length_lt_of_skip h
  unfold processTcpBuffer
  cases hl : buf.length with
  | zero => omega
  | succ n =>
    simp only [processAux]
    rw [h]
    exact processAux_congr n r.length r (by omega) le_rfl

theorem processTcpBuffer_bad {buf r : List Nat} (h : tcpStepFn buf = .badFrame r) :
    processTcpBuffer buf =
      ⟨(processTcpBuffer r).frames, (processTcpBuffer r).framesOk,
       (processTcpBuffer r).framesBad + 1, (processTcpBuffer r).buf⟩ := by
  have hlt := length_lt_of_bad h
  unfold processTcpBuffer
  cases hl : buf.length with
  | zero => omega
  | succ n =>
    simp only [processAux]
    rw [h]
    dsimp only
    rw [processAux_congr n r.length r (by omega) le_rfl]

theorem processTcpBuffer_good {buf f r : List Nat} (h : tcpStepFn buf = .goodFrame f r) :
    processTcpBuffer buf =
      ⟨f :: (processTcpBuffer r).frames, (processTcpBuffer r).framesOk + 1,
       (processTcpBuffer r).framesBad, (processTcpBuffer r).buf⟩ := by
  have hlt := length_lt_of_good h
  unfold processTcpBuffer
  cases hl : buf.length with
  | zero => omega
  | succ n =>
    simp only [processAux]
    rw [h]
    dsimp only
    rw [processAux_congr n r.length r (by omega) le_rfl]

theorem headI_append {l m : List Nat} (hl : l ≠ []) : (l ++ m).headI = l.headI := by
  cases l with
  | nil => exact absurd rfl hl
  | cons x xs => rfl

theorem frames_drop_first_sync {b : List Nat} {j : Nat}
    (hj : bufIndexOf 0xa0 b = some j) :
    (processTcpBuffer (b.drop j)).frames = (processTcpBuffer b).frames := by
  by_cases hb : 33 ≤ b.length
  · have hbne : b ≠ [] := by
      intro h
      subst h
      simp at hb
    by_cases hh : b.headI = 0xa0
    · have : bufIndexOf 0xa0 b = some 0 := bufIndexOf_head hbne hh
      rw [hj] at this
      simp only [Option.some.injEq] at this
      subst this
      rfl
    · rw [processTcpBuffer_skip (tcpStepFn_skip hb hh hj)]
  · have h1 := processTcpBuffer_needMore (tcpStepFn_lt (show b.length < 33 by omega))
    have h2 := processTcpBuffer_needMore (tcpStepFn_lt
      (show (b.drop j).length < 33 by rw [List.length_drop]; omega))
    rw [h1, h2]

theorem frames_garbage_append {u b : List Nat} (h33 : 33 ≤ u.length)
    (hh : u.headI ≠ 0xa0) (hidx : bufIndexOf 0xa0 u = none) :
    (processTcpBuffer (u ++ b)).frames = (processTcpBuffer b).frames := by
  have hune : u ≠ [] := by intro h; subst h; simp at h33
  have hlen : 33 ≤ (u ++ b).length := by rw [List.length_append]; omega
  have hne2 : (u ++ b).headI ≠ 0xa0 := by rw [headI_append hune]; exact hh
  cases hb : bufIndexOf 0xa0 b with
  | none =>
    have hidx2 : bufIndexOf 0xa0 (u ++ b) = none := by
      rw [bufIndexOf_append_none hidx b, hb]; rfl
    rw [processTcpBuffer_clear (tcpStepFn_clear hlen hne2 hidx2)]
    by_cases h33b : 33 ≤ b.length
    · have hbne : b ≠ [] := by intro h; subst h; simp at h33b
      have hhb : b.headI ≠ 0xa0 := by
        intro he
        have : bufIndexOf 0xa0 b = some 0 := bufIndexOf_head hbne he
        rw [hb] at this
        exact Option.noConfusion this
      rw [processTcpBuffer_clear (tcpStepFn_clear h33b hhb hb)]
    · rw [processTcpBuffer_needMore (tcpStepFn_lt (by omega))]
  | some j =>
    have hidx2 : bufIndexOf 0xa0 (u ++ b) = some (j + u.length) := by
      rw [bufIndexOf_append_none hidx b, hb]; rfl
    have hdrop : (u ++ b).drop (j + u.length) = b.drop j := by
      rw [Nat.add_comm]
      exact List.drop_append j
    have hstep2 := tcpStepFn_skip hlen hne2 hidx2
    rw [hdrop] at hstep2
    rw [processTcpBuffer_skip hstep2]
    exact frames_drop_first_sync hb

theorem frames_append_aux : ∀ (n : Nat) (u b : List Nat), u.length ≤ n →
    (processTcpBuffer (u ++ b)).frames
      = (processTcpBuffer u).frames
        ++ (processTcpBuffer ((processTcpBuffer u).buf ++ b)).frames := by
  intro n
  induction n with
  | zero =>
    intro u b hu
    have hu0 : u = [] := List.length_eq_zero.mp (by omega)
    subst hu0
    have h0 : processTcpBuffer ([] : List Nat) = ⟨[], 0, 0, []⟩ :=
      processTcpBuffer_needMore (tcpStepFn_lt (by simp))
    rw [h0]
    simp
  | succ n ih =>
    intro u b hu
    by_cases h33 : 33 ≤ u.length
    case neg =>
      rw [processTcpBuffer_needMore (tcpStepFn_lt (show u.length < 33 by omega))]
      simp
    case pos =>
      have hune : u ≠ [] := by intro h; subst h; simp at h33
      have hlen : 33 ≤ (u ++ b).length := by rw [List.length_append]; omega
      by_cases hh : u.headI = 0xa0
      · have e1 : (u ++ b).take 33 = u.take 33 := List.take_append_of_le_length h33
        have e2 : (u ++ b).drop 33 = u.drop 33 ++ b := List.drop_append_of_le_length h33
        have e3 : (u ++ b).headI = 0xa0 := by rw [headI_append hune]; exact hh
        by_cases hstop : (u.take 33).getD 32 0 &&& 0xf0 = 0xc0
        · have hstep := tcpStepFn_good h33 hh hstop
          have hstep2 : tcpStepFn (u ++ b) = .goodFrame (u.take 33) (u.drop 33 ++ b) := by
            have := tcpStepFn_good hlen e3 (by rw [e1]; exact hstop)
            rw [e1, e2] at this
            exact this
          rw [processTcpBuffer_good hstep, processTcpBuffer_good hstep2]
          dsimp only
          have hr := length_lt_of_good hstep
          rw [ih (u.drop 33) b (by omega)]
          simp
        · have hstep := tcpStepFn_bad h33 hh hstop
          have hstep2 : tcpStepFn (u ++ b) = .badFrame (u.drop 1 ++ b) := by
            have : (u ++ b).drop 1 = u.drop 1 ++ b := List.drop_append_of_le_length (by omega)
            have h4 := tcpStepFn_bad hlen e3 (by rw [e1]; exact hstop)
            rw [this] at h4
            exact h4
          rw [processTcpBuffer_bad hstep, processTcpBuffer_bad hstep2]
          dsimp only
          have hr := length_lt_of_bad hstep
          rw [ih (u.drop 1) b (by omega)]
      · cases hidx : bufIndexOf 0xa0 u with
        | some idx =>
          have hstep := tcpStepFn_skip h33 hh hidx
          have hstep2 : tcpStepFn (u ++ b) = .skipTo (u.drop idx ++ b) := by
            have e3 : (u ++ b).headI ≠ 0xa0 := by rw [headI_append hune]; exact hh
            have hlt := bufIndexOf_some_lt hidx
            have := tcpStepFn_skip hlen e3 (bufIndexOf_append_some hidx b)
            rw [List.drop_append_of_le_length (le_of_lt hlt)] at this
            exact this
          rw [processTcpBuffer_skip hstep, processTcpBuffer_skip hstep2]
          have hr := length_lt_of_skip hstep
          exact ih (u.drop idx) b (by omega)
        | none =>
          have hstep := tcpStepFn_clear h33 hh hidx
          rw [processTcpBuffer_clear hstep]
          dsimp only
          rw [List.nil_append]
          exact frames_garbage_append h33 hh hidx

theorem frames_append (u b : List Nat) :
    (processTcpBuffer (u ++ b)).frames
      = (processTcpBuffer u).frames
        ++ (processTcpBuffer ((processTcpBuffer u).buf ++ b)).frames :=
  frames_append_aux u.length u b le_rfl

theorem buf_length_lt_aux : ∀ (n : Nat) (buf : List Nat), buf.length ≤ n →
    (processTcpBuffer buf).buf.length < 33 := by
  intro n
  induction n with
  | zero =>
    intro buf hb
    have h0 : buf = [] := List.length_eq_zero.mp (by omega)
    subst h0
    rw [processTcpBuffer_needMore (tcpStepFn_lt (by simp))]
    simp
  | succ n ih =>
    intro buf hb
    cases hs : tcpStepFn buf with
    | needMore =>
      rw [processTcpBuffer_needMore hs]
      exact length_of_needMore hs
    | clearAll =>
      rw [processTcpBuffer_clear hs]
      simp
    | skipTo r =>
      rw [processTcpBuffer_skip hs]
      have := length_lt_of_skip hs
      exact ih r (by omega)
    | badFrame r =>
      rw [processTcpBuffer_bad hs]
      have := length_lt_of_bad hs
      exact ih r (by omega)
    | goodFrame f r =>
      rw [processTcpBuffer_good hs]
      have := length_lt_of_good hs
      exact ih r (by omega)

theorem processTcpBuffer_buf_length (buf : List Nat) :
    (processTcpBuffer buf).buf.length < 33 :=
  buf_length_lt_aux buf.length buf le_rfl


/-- Each emitted frame corresponds to exactly one increment of the good-frame
counter. -/
theorem frames_length_eq_ok_aux : ∀ (n : Nat) (buf : List Nat), buf.length ≤ n →
    (processTcpBuffer buf).frames.length = (processTcpBuffer buf).framesOk := by
  intro n
  induction n with
  | zero =>
    intro buf hb
    have h0 : buf = [] := List.length_eq_zero.mp (by omega)
    subst h0
    rw [processTcpBuffer_needMore (tcpStepFn_lt (by simp))]
    rfl
  | succ n ih =>
    intro buf hb
    cases hs : tcpStepFn buf with
    | needMore =>
      rw [processTcpBuffer_needMore hs]
      rfl
    | clearAll =>
      rw [processTcpBuffer_clear hs]
      rfl
    | skipTo r =>
      rw [processTcpBuffer_skip hs]
      have := length_lt_of_skip hs
      exact ih r (by omega)
    | badFrame r =>
      rw [processTcpBuffer_bad hs]
      have := length_lt_of_bad hs
      exact ih r (by omega)
    | goodFrame f r =>
      rw [processTcpBuffer_good hs]
      have := length_lt_of_good hs
      simp only [List.length_cons]
      rw [ih r (by omega)]

theorem frames_length_eq_ok (buf : List Nat) :
    (processTcpBuffer buf).frames.length = (processTcpBuffer buf).framesOk :=
  frames_length_eq_ok_aux buf.length buf le_rfl

/-! ## Serial Sink, Flow Coordinator and socket close (bridge.js lines 194-214,
288-310, 359-363)

The shared mutable state of bridge.js (currentSocket, tcpBuffer,
pausedBySerialBackpressure and the stats fields touched by this part) is an
explicit record. Environment inputs at each call, namely serial.writable, the
boolean returned by serial.write, and Date.now, are passed as arguments.
Signals sent to the TCP source (socket.pause, socket.resume) are returned
explicitly. -/

/-- Mutable module-level state of bridge.js relevant to the data path:
currentSocket (modelled by an optional socket identifier), tcpBuffer,
pausedBySerialBackpressure, and the stats counters touched by the frame and
serial paths. -/
structure BridgeState where
  currentSocket : Option Nat
  tcpBuffer : List Nat
  pausedBySerialBackpressure : Bool
  tcpFramesOk : Nat
  tcpFramesBad : Nat
  serialBytes : Nat
  serialFrames : Nat
  serialBackpressure : Nat
  lastSerialAt : Nat
deriving Repr, DecidableEq

/-- Signal issued to the TCP source: socket.pause() or socket.resume(). -/
inductive FlowSig where
  | pause
  | resume
deriving Repr, DecidableEq

/-- writeToSerial from bridge.js (lines 288-302). writable is serial.writable,
okRet the boolean returned by serial.write, now the Date.now value. When the
transport is not writable the frame is dropped and nothing changes; otherwise
the serial stats advance, and saturation with a connected, not yet paused
source pauses the source and sets the flag. -/
def writeToSerial (writable okRet : Bool) (now : Nat) (data : List Nat)
    (s : BridgeState) : BridgeState × List FlowSig :=
  if !writable then (s, [])
  else
    let s1 := { s with serialBytes := s.serialBytes + data.length,
                       serialFrames := s.serialFrames + 1,
                       lastSerialAt := now }
    if !okRet && s1.currentSocket.isSome && !s1.pausedBySerialBackpressure then
      ({ s1 with pausedBySerialBackpressure := true,
                 serialBackpressure := s1.serialBackpressure + 1 }, [.pause])
    else (s1, [])

/-- Drain handler of bridge.js (lines 304-310): resume the source only when a
socket is tracked and the backpressure flag is set, then clear the flag. -/
def onSerialDrain (s : BridgeState) : BridgeState × List FlowSig :=
  if s.currentSocket.isSome && s.pausedBySerialBackpressure then
    ({ s with pausedBySerialBackpressure := false }, [.resume])
  else (s, [])

/-- Close handler of bridge.js (lines 359-363): forget the socket if it is the
tracked one and clear the receive buffer. Nothing else is touched. -/
def onSocketClose (sockId : Nat) (s : BridgeState) : BridgeState :=
  let s1 := if s.currentSocket = some sockId then { s with currentSocket := none } else s
  { s1 with tcpBuffer := [] }

/-- Event reaching the flow coordinator: a frame write (with its environment
inputs) or the serial drain event. -/
inductive FlowEv where
  | write (writable okRet : Bool) (now : Nat) (data : List Nat)
  | drain
deriving Repr, DecidableEq

/-- Dispatch of one flow event to its handler. -/
def flowStep (s : BridgeState) : FlowEv → BridgeState × List FlowSig
  | .write w ok now data => writeToSerial w ok now data s
  | .drain => onSerialDrain s

/-- Run of a sequence of flow events, collecting all pause/resume signals in
order. -/
def flowRun (s : BridgeState) : List FlowEv → BridgeState × List FlowSig
  | [] => (s, [])
  | e :: es =>
    let r1 := flowStep s e
    let r2 := flowRun r1.1 es
    (r2.1, r1.2 ++ r2.2)

/-- Alternation discipline for pause/resume signals, tracked against the
backpressure flag: from an unpaused state the next signal can only be a pause,
from a paused state only a resume. Holding means neither signal is ever issued
redundantly. -/
def sigAlt : Bool → List FlowSig → Bool
  | _, [] => true
  | false, .pause :: rest => sigAlt true rest
  | true, .resume :: rest => sigAlt false rest
  | _, _ => false

theorem flowStep_sigAlt (s : BridgeState) (e : FlowEv) (rest : List FlowSig) :
    sigAlt s.pausedBySerialBackpressure ((flowStep s e).2 ++ rest)
      = sigAlt (flowStep s e).1.pausedBySerialBackpressure rest := by
  cases e with
  | drain =>
    simp only [flowStep, onSerialDrain]
    by_cases h : s.currentSocket.isSome && s.pausedBySerialBackpressure
    · rw [if_pos h]
      simp only [Bool.and_eq_true] at h
      rw [h.2]
      rfl
    · rw [if_neg h]
      simp
  | write w ok now data =>
    simp only [flowStep, writeToSerial]
    by_cases hw : (!w) = true
    · rw [if_pos hw]; simp
    · rw [if_neg hw]
      by_cases hc : (!ok && s.currentSocket.isSome && !s.pausedBySerialBackpressure) = true
      · rw [if_pos hc]
        simp only [Bool.and_eq_true, Bool.not_eq_true'] at hc
        rw [hc.2]
        rfl
      · rw [if_neg hc]
        simp

theorem flowRun_sigAlt (evs : List FlowEv) : ∀ (s : BridgeState),
    sigAlt s.pausedBySerialBackpressure (flowRun s evs).2 = true := by
  induction evs with
  | nil =>
    intro s
    cases s.pausedBySerialBackpressure <;> rfl
  | cons e es ih =>
    intro s
    simp only [flowRun]
    rw [flowStep_sigAlt]
    exact ih (flowStep s e).1

theorem pause_characterization (s : BridgeState) (e : FlowEv)
    (h : FlowSig.pause ∈ (flowStep s e).2) :
    (∃ w ok now data, e = .write w ok now data ∧ w = true ∧ ok = false)
      ∧ s.currentSocket.isSome = true
      ∧ s.pausedBySerialBackpressure = false
      ∧ (flowStep s e).1.pausedBySerialBackpressure = true := by
  cases e with
  | drain =>
    exfalso
    simp only [flowStep, onSerialDrain] at h
    by_cases hc : s.currentSocket.isSome && s.pausedBySerialBackpressure
    · rw [if_pos hc] at h; simp at h
    · rw [if_neg hc] at h; simp at h
  | write w ok now data =>
    simp only [flowStep, writeToSerial] at h ⊢
    by_cases hw : (!w) = true
    · rw [if_pos hw] at h; simp at h
    · rw [if_neg hw] at h ⊢
      by_cases hc : (!ok && s.currentSocket.isSome && !s.pausedBySerialBackpressure) = true
      · rw [if_pos hc] at h ⊢
        simp only [Bool.and_eq_true, Bool.not_eq_true'] at hc
        refine ⟨⟨w, ok, now, data, rfl, ?_, hc.1.1⟩, hc.1.2, hc.2, rfl⟩
        cases w
        · exact absurd rfl hw
        · rfl
      · rw [if_neg hc] at h; simp at h

theorem resume_characterization (s : BridgeState) (e : FlowEv)
    (h : FlowSig.resume ∈ (flowStep s e).2) :
    e = .drain ∧ s.pausedBySerialBackpressure = true
      ∧ (flowStep s e).1.pausedBySerialBackpressure = false := by
  cases e with
  | write w ok now data =>
    exfalso
    simp only [flowStep, writeToSerial] at h
    by_cases hw : (!w) = true
    · rw [if_pos hw] at h; simp at h
    · rw [if_neg hw] at h
      by_cases hc : (!ok && s.currentSocket.isSome && !s.pausedBySerialBackpressure) = true
      · rw [if_pos hc] at h; simp at h
      · rw [if_neg hc] at h; simp at h
  | drain =>
    simp only [flowStep, onSerialDrain] at h ⊢
    by_cases hc : (s.currentSocket.isSome && s.pausedBySerialBackpressure) = true
    · rw [if_pos hc] at h ⊢
      simp only [Bool.and_eq_true] at hc
      exact ⟨by trivial, hc.2, rfl⟩
    · rw [if_neg hc] at h; simp at h

theorem writeToSerial_not_writable (okRet : Bool) (now : Nat) (data : List Nat)
    (s : BridgeState) : writeToSerial false okRet now data s = (s, []) := rfl

theorem writeToSerial_serialFrames_le (writable okRet : Bool) (now : Nat)
    (data : List Nat) (s : BridgeState) :
    (writeToSerial writable okRet now data s).1.serialFrames ≤ s.serialFrames + 1 := by
  simp only [writeToSerial]
  by_cases hw : (!writable) = true
  · rw [if_pos hw]
    exact Nat.le_succ _
  · rw [if_neg hw]
    by_cases hc : (!okRet && s.currentSocket.isSome && !s.pausedBySerialBackpressure) = true
    · rw [if_pos hc]
    · rw [if_neg hc]

theorem writeToSerial_tcpFramesOk (writable okRet : Bool) (now : Nat)
    (data : List Nat) (s : BridgeState) :
    (writeToSerial writable okRet now data s).1.tcpFramesOk = s.tcpFramesOk := by
  simp only [writeToSerial]
  by_cases hw : (!writable) = true
  · rw [if_pos hw]
  · rw [if_neg hw]
    by_cases hc : (!okRet && s.currentSocket.isSome && !s.pausedBySerialBackpressure) = true
    · rw [if_pos hc]
    · rw [if_neg hc]

/-! ## Ingest pipeline (bridge.js lines 326-357): reassembled frames are
handed to writeToSerial in order. env supplies the per-write environment
(serial.writable, the serial.write return, Date.now). -/

/-- Forwarding of a list of frames to the serial sink, in order. -/
def forwardFrames (env : Nat → Bool × Bool × Nat) : Nat → List (List Nat) → BridgeState → BridgeState
  | _, [], s => s
  | i, f :: fs, s =>
    let e := env i
    forwardFrames env (i + 1) fs (writeToSerial e.1 e.2.1 e.2.2 f s).1

/-- One socket data event (bridge.js lines 349-357): append the chunk, run the
reassembler, account the counter increments, and forward each emitted frame to
writeToSerial. -/
def tcpIngest (env : Nat → Bool × Bool × Nat) (chunk : List Nat) (s : BridgeState) : BridgeState :=
  let r := processTcpBuffer (s.tcpBuffer ++ chunk)
  let s1 := { s with tcpBuffer := r.buf,
                     tcpFramesOk := s.tcpFramesOk + r.framesOk,
                     tcpFramesBad := s.tcpFramesBad + r.framesBad }
  forwardFrames env 0 r.frames s1

/-- Run of a whole sequence of data events, each chunk with its own write
environment. -/
def runPipeline (s : BridgeState) : List (List Nat × (Nat → Bool × Bool × Nat)) → BridgeState
  | [] => s
  | (chunk, env) :: rest => runPipeline (tcpIngest env chunk s) rest

theorem forwardFrames_tcpFramesOk (env : Nat → Bool × Bool × Nat) :
    ∀ (fs : List (List Nat)) (i : Nat) (s : BridgeState),
      (forwardFrames env i fs s).tcpFramesOk = s.tcpFramesOk := by
  intro fs
  induction fs with
  | nil => intro i s; rfl
  | cons f fs ih =>
    intro i s
    simp only [forwardFrames]
    rw [ih, writeToSerial_tcpFramesOk]

theorem forwardFrames_serialFrames_le (env : Nat → Bool × Bool × Nat) :
    ∀ (fs : List (List Nat)) (i : Nat) (s : BridgeState),
      (forwardFrames env i fs s).serialFrames ≤ s.serialFrames + fs.length := by
  intro fs
  induction fs with
  | nil => intro i s; simp [forwardFrames]
  | cons f fs ih =>
    intro i s
    simp only [forwardFrames, List.length_cons]
    calc (forwardFrames env (i + 1) fs (writeToSerial (env i).1 (env i).2.1 (env i).2.2 f s).1).serialFrames
        ≤ (writeToSerial (env i).1 (env i).2.1 (env i).2.2 f s).1.serialFrames + fs.length := ih (i + 1) _
      _ ≤ s.serialFrames + 1 + fs.length := by
          have := writeToSerial_serialFrames_le (env i).1 (env i).2.1 (env i).2.2 f s
          omega
      _ = s.serialFrames + (fs.length + 1) := by omega

theorem tcpIngest_ok_ge (env : Nat → Bool × Bool × Nat) (chunk : List Nat)
    (s : BridgeState) (h : s.serialFrames ≤ s.tcpFramesOk) :
    (tcpIngest env chunk s).serialFrames ≤ (tcpIngest env chunk s).tcpFramesOk := by
  simp only [tcpIngest]
  rw [forwardFrames_tcpFramesOk]
  have hle := forwardFrames_serialFrames_le env
    (processTcpBuffer (s.tcpBuffer ++ chunk)).frames 0
    { s with tcpBuffer := (processTcpBuffer (s.tcpBuffer ++ chunk)).buf,
             tcpFramesOk := s.tcpFramesOk + (processTcpBuffer (s.tcpBuffer ++ chunk)).framesOk,
             tcpFramesBad := s.tcpFramesBad + (processTcpBuffer (s.tcpBuffer ++ chunk)).framesBad }
  dsimp only at hle ⊢
  have hfr : (processTcpBuffer (s.tcpBuffer ++ chunk)).frames.length
      = (processTcpBuffer (s.tcpBuffer ++ chunk)).framesOk :=
    frames_length_eq_ok (s.tcpBuffer ++ chunk)
  omega

theorem runPipeline_ok_ge (runs : List (List Nat × (Nat → Bool × Bool × Nat))) :
    ∀ (s : BridgeState), s.serialFrames ≤ s.tcpFramesOk →
      (runPipeline s runs).serialFrames ≤ (runPipeline s runs).tcpFramesOk := by
  induction runs with
  | nil => intro s h; exact h
  | cons r rest ih =>
    intro s h
    obtain ⟨chunk, env⟩ := r
    simp only [runPipeline]
    exact ih _ (tcpIngest_ok_ge env chunk s h)

/-! ## Command Dispatch Queue (bridge.js lines 158-182)

The queue is the promise chain cmdQ: each queueCmd call appends
.then(dispatch).catch(log).finally(depth decrement) to the chain. A link is
modelled by its effect on the settled state of the chain together with the
dispatch it performs; the outcome of each sendShieldCommand await comes from
an oracle indexed by position. -/

/-- Outcome of one awaited sendShieldCommand call: a settled HTTP result, or a
thrown error (transport failure propagating out of the await). -/
inductive SendOutcome where
  | resolved (ok : Bool) (status : Nat) (text : String)
  | thrown
deriving Repr, DecidableEq

/-- Settled state of a promise in the chain. -/
inductive PState where
  | fulfilled
  | rejected
deriving Repr, DecidableEq

/-- One queued link of the chain, namely .then(run).catch(handler).finally:
the then-block runs the dispatch only when the incoming promise is fulfilled
and rejects when the dispatch throws; the catch-handler turns any rejection
back into fulfilment (it only logs); finally preserves the state. Returns the
new settled state and the dispatches performed (the token list). -/
def chainLink (oc : SendOutcome) (st : PState) (cmd : String) : PState × List String :=
  let afterThen : PState × List String :=
    match st with
    | .fulfilled =>
      match oc with
      | .thrown => (.rejected, [cmd])
      | .resolved _ _ _ => (.fulfilled, [cmd])
    | .rejected => (.rejected, [])
  let afterCatch : PState :=
    match afterThen.1 with
    | .rejected => .fulfilled
    | .fulfilled => .fulfilled
  (afterCatch, afterThen.2)

/-- Drain of the whole chain over the enqueued tokens, in enqueue order,
collecting the dispatch trace. -/
def runCmdChain (oracle : Nat → SendOutcome) : List String → Nat → PState → PState × List String
  | [], _, st => (st, [])
  | c :: cs, i, st =>
    let r1 := chainLink (oracle i) st c
    let r2 := runCmdChain oracle cs (i + 1) r1.1
    (r2.1, r1.2 ++ r2.2)

theorem chainLink_fulfilled (oc : SendOutcome) (cmd : String) :
    chainLink oc .fulfilled cmd = (.fulfilled, [cmd]) := by
  cases oc <;> rfl

theorem runCmdChain_fifo (oracle : Nat → SendOutcome) :
    ∀ (tokens : List String) (i : Nat),
      (runCmdChain oracle tokens i .fulfilled).2 = tokens := by
  intro tokens
  induction tokens with
  | nil => intro i; rfl
  | cons c cs ih =>
    intro i
    simp only [runCmdChain, chainLink_fulfilled]
    rw [ih (i + 1)]
    rfl

/-! ## HTTP command sender (bridge.js lines 125-156) -/

/-- Outcome of one fetch call: a response (ok mirrors Response.ok, i.e. a 2xx
status) or a network-level error that makes the awaited fetch throw. -/
inductive FetchOutcome where
  | resp (ok : Bool) (status : Nat) (text : String)
  | netError
deriving Repr, DecidableEq

/-- Result value produced by httpJson and by the fallback branch of
sendShieldCommand. -/
structure HttpResult where
  ok : Bool
  status : Nat
  text : String
deriving Repr, DecidableEq

/-- POST request issued to the /command endpoint: JSON body or text/plain
body, each carrying the command token. -/
inductive PostBody where
  | json (cmd : String)
  | plain (cmd : String)
deriving Repr, DecidableEq

/-- sendShieldCommand from bridge.js: POST the command as JSON; on a settled
non-ok response, retry once with a text/plain body; a thrown first fetch
propagates out of the function (Except.error) without any fallback. first and
second are the outcomes the two possible fetch calls would have; the returned
list records the POSTs actually made, in order. -/
def sendShieldCommand (first second : FetchOutcome) (cmd : String) :
    Except Unit HttpResult × List PostBody :=
  match first with
  | .netError => (.error (), [.json cmd])
  | .resp ok1 st1 tx1 =>
    if ok1 then (.ok ⟨ok1, st1, tx1⟩, [.json cmd])
    else
      match second with
      | .netError => (.error (), [.json cmd, .plain cmd])
      | .resp ok2 st2 tx2 => (.ok ⟨ok2, st2, tx2⟩, [.json cmd, .plain cmd])

/-! ## Stream Lifecycle Controller (bridge.js lines 393-428, 476-494)

Asynchronous timing is made explicit: the oracle d gives the duration of each
awaited HTTP call, indexed by its position in the sequence, and every issued
call is recorded with the time at which it is issued. -/

/-- Remote call issued during a lifecycle sequence. -/
inductive ShieldCall where
  | stopStream
  | startStream
  | command (cmd : String)
deriving Repr, DecidableEq

/-- Channel-configuration loop of startStream: dispatch each configured
channel command in order, each await taking its oracle-given duration. Returns
the timed trace, the completion time, and the next oracle index. -/
def runChannelCmds (d : Nat → Nat) :
    List (Nat × String) → Nat → Nat → List (Nat × ShieldCall) × Nat × Nat
  | [], i, t => ([], t, i)
  | (_, cmd) :: rest, i, t =>
    let t1 := t + d i
    let r := runChannelCmds d rest (i + 1) t1
    ((t, .command cmd) :: r.1, r.2)

/-- startStream from bridge.js (lines 400-428), begun at time t0: await
stopStream, dispatch the initialization command when configured, dispatch the
channel commands in order, then issue the stream-start call 1000 ms after the
preceding steps complete. -/
def startStream (initCmd : String) (channelCmds : List (Nat × String))
    (d : Nat → Nat) (t0 : Nat) : List (Nat × ShieldCall) :=
  let t1 := t0 + d 0
  let initPart : List (Nat × ShieldCall) × Nat × Nat :=
    if initCmd ≠ "" then ([(t1, .command initCmd)], t1 + d 1, 2)
    else ([], t1, 1)
  let chPart := runChannelCmds d channelCmds initPart.2.2 initPart.2.1
  (t0, .stopStream) :: initPart.1 ++ chPart.1 ++ [(chPart.2.1 + 1000, .startStream)]

/-- Lifecycle trigger recognised by the serial data handler. -/
inductive Trigger where
  | start
  | stop
deriving Repr, DecidableEq

/-- Trigger scan of the serial data handler (bridge.js lines 479-493): each
byte equal to the character b schedules a start sequence, each byte equal to
the character s schedules a stop sequence. -/
def triggerScan (buf : List Nat) : List Trigger :=
  buf.flatMap fun byte =>
    (if byte = 98 then [Trigger.start] else []) ++ (if byte = 115 then [Trigger.stop] else [])

theorem triggerScan_start_count (buf : List Nat) :
    (triggerScan buf).count Trigger.start = buf.count 98 := by
  induction buf with
  | nil => rfl
  | cons x xs ih =>
    simp only [triggerScan] at ih ⊢
    rw [List.flatMap_cons, List.count_append, ih, List.count_cons]
    by_cases hx : x = 98
    · subst hx
      simp [List.count_append]
      omega
    · rw [if_neg hx]
      have hx2 : x ≠ 115 ∨ x = 115 := by omega
      by_cases hy : x = 115
      · subst hy
        simp [List.count_append, List.count_cons]
      · simp [hx, hy]

theorem startStream_no_init_no_channels (d : Nat → Nat) (t0 : Nat) :
    startStream "" [] d t0
      = [(t0, .stopStream), (t0 + d 0 + 1000, .startStream)] := by
  simp [startStream, runChannelCmds]

/-! ## Claims -/

/-- Claim C1 (counterexample). Feeding the bytes of the text "start34X" to the
Command Tokenizer from an empty accumulator does not emit exactly one token
equal to "start34X": the leading letter s is itself a single-character command
and is emitted on its own first. -/
theorem claim_C1_counterexample :
    (feedCmdBytes "" (strBytes "start34X")).2 ≠ ["start34X"] := by decide

/-- Claim C1 (amended). Feeding the bytes of "start34X" from an empty
accumulator emits exactly the two tokens "s" (immediately, as a
single-character command) and "tart34X", the latter immediately upon
processing the X byte and without needing a newline: after the bytes of
"start34" the emitted tokens are just ["s"] with accumulator "tart34", and
the X byte (value 88) alone then emits "tart34X" and clears the
accumulator. -/
theorem claim_C1 :
    (feedCmdBytes "" (strBytes "start34X")).2 = ["s", "tart34X"]
      ∧ feedCmdBytes "" (strBytes "start34") = ("tart34", ["s"])
      ∧ feedCmdByte "tart34" 88 = ("", ["tart34X"]) := by decide

/-- Claim C2. Chunk-boundary independence of the Frame Reassembler: for every
starting buffer state s and every pair of byte chunks a and b, ingesting the
concatenation a ++ b in one call emits exactly the same frame sequence (same
frames, same order) as ingesting a and then b in two sequential calls, the
second starting from the residual buffer left by the first. -/
theorem claim_C2 (s a b : List Nat) :
    (ingest s (a ++ b)).frames
      = (ingest s a).frames ++ (ingest (ingest s a).buf b).frames := by
  unfold ingest
  rw [← List.append_assoc]
  exact frames_append (s ++ a) b

/-- Claim C3. One reassembly step on a buffer whose head byte is the sync
marker 0xA0 and with at least 33 bytes buffered: when the candidate frame's
stop byte has high nibble different from 0xC, the step rejects the candidate,
exactly 1 byte (not 33) is removed from the head, no frame is emitted by the
step, and the full pass counts exactly one more bad frame than its
continuation with the other counters unchanged; when the high nibble equals
0xC, the step emits the 33-byte frame unmodified, removes exactly 33 bytes,
and the full pass counts exactly one more good frame than its continuation
with the bad-frame counter unchanged. -/
theorem claim_C3 (buf : List Nat) (h33 : 33 ≤ buf.length) (hs : buf.headI = 0xa0) :
    (¬ ((buf.take 33).getD 32 0 &&& 0xf0 = 0xc0) →
        tcpStepFn buf = .badFrame (buf.drop 1)
          ∧ processTcpBuffer buf
              = ⟨(processTcpBuffer (buf.drop 1)).frames,
                 (processTcpBuffer (buf.drop 1)).framesOk,
                 (processTcpBuffer (buf.drop 1)).framesBad + 1,
                 (processTcpBuffer (buf.drop 1)).buf⟩)
      ∧ ((buf.take 33).getD 32 0 &&& 0xf0 = 0xc0 →
          tcpStepFn buf = .goodFrame (buf.take 33) (buf.drop 33)
            ∧ processTcpBuffer buf
                = ⟨buf.take 33 :: (processTcpBuffer (buf.drop 33)).frames,
                   (processTcpBuffer (buf.drop 33)).framesOk + 1,
                   (processTcpBuffer (buf.drop 33)).framesBad,
                   (processTcpBuffer (buf.drop 33)).buf⟩) := by
  constructor
  · intro hstop
    have h := tcpStepFn_bad h33 hs hstop
    exact ⟨h, processTcpBuffer_bad h⟩
  · intro hstop
    have h := tcpStepFn_good h33 hs hstop
    exact ⟨h, processTcpBuffer_good h⟩

/-- Concrete 33-byte block with correct sync and an invalid stop byte 0x05. -/
def cBadStop : List Nat := 0xa0 :: (List.replicate 31 0 ++ [0x05])

/-- Concrete 33-byte block with correct sync and a valid stop byte 0xC5. -/
def cGoodStop : List Nat := 0xa0 :: (List.replicate 31 0 ++ [0xc5])

/-- Witness for claim C3 at the two concrete 33-byte blocks. -/
theorem claim_C3_witness :
    (tcpStepFn cBadStop = .badFrame (cBadStop.drop 1)
        ∧ processTcpBuffer cBadStop
            = ⟨(processTcpBuffer (cBadStop.drop 1)).frames,
               (processTcpBuffer (cBadStop.drop 1)).framesOk,
               (processTcpBuffer (cBadStop.drop 1)).framesBad + 1,
               (processTcpBuffer (cBadStop.drop 1)).buf⟩)
      ∧ (tcpStepFn cGoodStop = .goodFrame (cGoodStop.take 33) (cGoodStop.drop 33)
        ∧ processTcpBuffer cGoodStop
            = ⟨cGoodStop.take 33 :: (processTcpBuffer (cGoodStop.drop 33)).frames,
               (processTcpBuffer (cGoodStop.drop 33)).framesOk + 1,
               (processTcpBuffer (cGoodStop.drop 33)).framesBad,
               (processTcpBuffer (cGoodStop.drop 33)).buf⟩) :=
  ⟨(claim_C3 cBadStop (by decide) (by decide)).1 (by decide),
   (claim_C3 cGoodStop (by decide) (by decide)).2 (by decide)⟩

/-- Claim C4. The Command Dispatch Queue dispatches tokens strictly in enqueue
(FIFO) order: draining the promise chain from its initial fulfilled state
performs exactly the enqueued tokens, in that order, for every outcome oracle;
in particular a failing dispatch (a thrown sendShieldCommand or a non-ok
response) never prevents or reorders the dispatch of later tokens, since the
catch link restores the chain to fulfilled. The chain structure itself runs
the dispatches one at a time. -/
theorem claim_C4 (oracle : Nat → SendOutcome) (tokens : List String) :
    (runCmdChain oracle tokens 0 .fulfilled).2 = tokens :=
  runCmdChain_fifo oracle tokens 0

/-- Claim C5 (counterexample). A transport failure of the first structured
POST does not lead to a plain-text fallback: with the first fetch throwing,
only the JSON POST is made and the error propagates, contradicting the claim
that any non-success of the first POST triggers a second plain-text POST. -/
theorem claim_C5_counterexample :
    PostBody.plain "b" ∉ (sendShieldCommand .netError (.resp true 200 "") "b").2
      ∧ (sendShieldCommand .netError (.resp true 200 "") "b").2
          = [PostBody.json "b"] := by decide

/-- Claim C5 (amended). If the first structured POST resolves with a non-2xx
status, a second POST carrying the same token as plain text is attempted; if
the first POST succeeds, no second POST is made; and if the first POST fails
at the transport level (the fetch throws), the error propagates and no second
POST is attempted. -/
theorem claim_C5 (cmd : String) (st : Nat) (tx : String) (second : FetchOutcome) :
    (sendShieldCommand (.resp true st tx) second cmd).2 = [.json cmd]
      ∧ (sendShieldCommand (.resp false st tx) second cmd).2 = [.json cmd, .plain cmd]
      ∧ (sendShieldCommand .netError second cmd).2 = [.json cmd]
      ∧ (sendShieldCommand .netError second cmd).1 = .error () := by
  refine ⟨rfl, ?_, rfl, rfl⟩
  cases second <;> rfl

/-- Concrete paused state with a tracked socket, buffered bytes and nonzero
counters, used to exhibit the close behaviour. -/
def cClosedState : BridgeState :=
  { currentSocket := some 0, tcpBuffer := [1, 2, 3],
    pausedBySerialBackpressure := true, tcpFramesOk := 4, tcpFramesBad := 1,
    serialBytes := 99, serialFrames := 3, serialBackpressure := 1,
    lastSerialAt := 7 }

/-- Claim C6 (counterexample). Closing the TCP peer connection does not reset
the Flow Control Flag: from a state paused by backpressure whose tracked
socket is the closing one, the close handler leaves the flag set. -/
theorem claim_C6_counterexample :
    cClosedState.currentSocket = some 0
      ∧ cClosedState.pausedBySerialBackpressure = true
      ∧ (onSocketClose 0 cClosedState).pausedBySerialBackpressure = true := by decide

/-- Claim C6 (amended). When the TCP peer connection closes, the Receive
Buffer is reset to empty and the socket tracking is cleared when the closing
socket is the tracked one, while the Flow Control Flag and all counters are
unchanged (and the handler touches nothing else, so scheduled dispatches and
lifecycle timers proceed). -/
theorem claim_C6 (sockId : Nat) (s : BridgeState) :
    (onSocketClose sockId s).tcpBuffer = []
      ∧ (onSocketClose sockId s).pausedBySerialBackpressure = s.pausedBySerialBackpressure
      ∧ (onSocketClose sockId s).tcpFramesOk = s.tcpFramesOk
      ∧ (onSocketClose sockId s).tcpFramesBad = s.tcpFramesBad
      ∧ (onSocketClose sockId s).serialBytes = s.serialBytes
      ∧ (onSocketClose sockId s).serialFrames = s.serialFrames
      ∧ (onSocketClose sockId s).serialBackpressure = s.serialBackpressure
      ∧ (onSocketClose sockId s).lastSerialAt = s.lastSerialAt
      ∧ (onSocketClose sockId s).currentSocket
          = (if s.currentSocket = some sockId then none else s.currentSocket) := by
  unfold onSocketClose
  split <;> simp_all

/-- Claim C7. Flow-control discipline. Over any sequence of write and drain
events the pause and resume signals strictly alternate against the Flow
Control Flag, so each is issued at most once per saturation episode, never
redundantly. Moreover a pause signal is issued by a step only when that step
is a write whose transport was writable and whose serial write reported
saturation, a source is connected, and the flag is not already set, and the
step then sets the flag; a resume signal is issued only by the drain event and
only when the flag is set, and the step then clears the flag. -/
theorem claim_C7 (s : BridgeState) (evs : List FlowEv) (e : FlowEv) :
    sigAlt s.pausedBySerialBackpressure (flowRun s evs).2 = true
      ∧ (FlowSig.pause ∈ (flowStep s e).2 →
          (∃ w ok now data, e = .write w ok now data ∧ w = true ∧ ok = false)
            ∧ s.currentSocket.isSome = true
            ∧ s.pausedBySerialBackpressure = false
            ∧ (flowStep s e).1.pausedBySerialBackpressure = true)
      ∧ (FlowSig.resume ∈ (flowStep s e).2 →
          e = .drain ∧ s.pausedBySerialBackpressure = true
            ∧ (flowStep s e).1.pausedBySerialBackpressure = false) :=
  ⟨flowRun_sigAlt evs s, pause_characterization s e, resume_characterization s e⟩

/-- Concrete connected, unpaused state for the flow-control witness. -/
def cFlowUnpaused : BridgeState :=
  { currentSocket := some 0, tcpBuffer := [], pausedBySerialBackpressure := false,
    tcpFramesOk := 0, tcpFramesBad := 0, serialBytes := 0, serialFrames := 0,
    serialBackpressure := 0, lastSerialAt := 0 }

/-- Concrete connected, paused state for the flow-control witness. -/
def cFlowPaused : BridgeState :=
  { cFlowUnpaused with pausedBySerialBackpressure := true }

/-- Concrete saturating write event for the flow-control witness. -/
def cFlowWrite : FlowEv := .write true false 5 [1, 2]

/-- Witness for claim C7: a saturating write from the unpaused state issues a
pause and sets the flag; the drain event from the paused state issues a resume
and clears the flag. -/
theorem claim_C7_witness :
    ((∃ w ok now data, cFlowWrite = FlowEv.write w ok now data ∧ w = true ∧ ok = false)
        ∧ cFlowUnpaused.currentSocket.isSome = true
        ∧ cFlowUnpaused.pausedBySerialBackpressure = false
        ∧ (flowStep cFlowUnpaused cFlowWrite).1.pausedBySerialBackpressure = true)
      ∧ (FlowEv.drain = FlowEv.drain
        ∧ cFlowPaused.pausedBySerialBackpressure = true
        ∧ (flowStep cFlowPaused FlowEv.drain).1.pausedBySerialBackpressure = false) :=
  ⟨(claim_C7 cFlowUnpaused [] cFlowWrite).2.1 (by decide),
   (claim_C7 cFlowPaused [] FlowEv.drain).2.2 (by decide)⟩

/-- Claim C8. After every completed reassembly pass, either the residual
buffer holds fewer than 33 bytes, or its first byte is the sync marker 0xA0
(the pass in fact always leaves fewer than 33 bytes buffered). -/
theorem claim_C8 (buf : List Nat) :
    (processTcpBuffer buf).buf.length < 33
      ∨ (processTcpBuffer buf).buf.headI = 0xa0 :=
  Or.inl (processTcpBuffer_buf_length buf)

/-- Claim C9. When the serial stream carries the lifecycle trigger b exactly
once, exactly one start sequence is scheduled; and with no initialization
command configured and no channel commands configured, the sequence begun at
time t0 issues exactly one stop-stream call (at t0), zero initialization
command calls, zero channel command calls, and exactly one start-stream call,
issued 1000 ms after the stop-stream call completes and hence no earlier than
1 second after the sequence began. -/
theorem claim_C9 (buf : List Nat) (d : Nat → Nat) (t0 : Nat)
    (hb : buf.count 98 = 1) :
    (triggerScan buf).count Trigger.start = 1
      ∧ startStream "" [] d t0
          = [(t0, ShieldCall.stopStream), (t0 + d 0 + 1000, ShieldCall.startStream)]
      ∧ t0 + 1000 ≤ t0 + d 0 + 1000 := by
  refine ⟨?_, startStream_no_init_no_channels d t0, by omega⟩
  rw [triggerScan_start_count, hb]

/-- Witness for claim C9: the chunk consisting of the single byte b, with a
1 ms duration for the stop-stream call and sequence start at time 0. -/
theorem claim_C9_witness :
    (triggerScan [98]).count Trigger.start = 1
      ∧ startStream "" [] (fun _ => 1) 0
          = [(0, ShieldCall.stopStream), (0 + 1 + 1000, ShieldCall.startStream)]
      ∧ 0 + 1000 ≤ 0 + 1 + 1000 :=
  claim_C9 [98] (fun _ => 1) 0 (by decide)

/-- Claim C10. A frame handed to the Serial Sink while the serial transport is
not writable is dropped with no state change at all — in particular
serialBytes, serialFrames and lastSerialAt remain unchanged — while the
reassembler has already counted the frame in the good-frame counter before the
write; consequently, over every run of the ingest pipeline starting from a
state whose good-frame count is at least its serial frame count (as at process
start, when both are zero), the good-frame count stays greater than or equal
to the serial frame count, and the two may diverge. -/
theorem claim_C10 (okRet : Bool) (now : Nat) (data : List Nat) (s : BridgeState)
    (runs : List (List Nat × (Nat → Bool × Bool × Nat))) (s0 : BridgeState)
    (h : s0.serialFrames ≤ s0.tcpFramesOk) :
    writeToSerial false okRet now data s = (s, [])
      ∧ (runPipeline s0 runs).serialFrames ≤ (runPipeline s0 runs).tcpFramesOk :=
  ⟨writeToSerial_not_writable okRet now data s, runPipeline_ok_ge runs s0 h⟩

/-- Concrete zeroed start state for the pipeline witness. -/
def cPipeStart : BridgeState :=
  { currentSocket := some 0, tcpBuffer := [], pausedBySerialBackpressure := false,
    tcpFramesOk := 0, tcpFramesBad := 0, serialBytes := 0, serialFrames := 0,
    serialBackpressure := 0, lastSerialAt := 0 }

/-- Write environment in which the serial transport is never writable. -/
def cPipeEnv : Nat → Bool × Bool × Nat := fun _ => (false, true, 0)

/-- Concrete valid 33-byte frame chunk for the pipeline witness. -/
def cPipeChunk : List Nat := 0xa0 :: (List.replicate 31 2 ++ [0xc0])

/-- Witness for claim C10: ingesting one valid frame while the serial
transport is unwritable leaves the good-frame count at 1 and the serial frame
count at 0, and the inequality of the claim holds. -/
theorem claim_C10_witness :
    (writeToSerial false true 0 [1] cPipeStart = (cPipeStart, [])
      ∧ (runPipeline cPipeStart [(cPipeChunk, cPipeEnv)]).serialFrames
          ≤ (runPipeline cPipeStart [(cPipeChunk, cPipeEnv)]).tcpFramesOk)
      ∧ (runPipeline cPipeStart [(cPipeChunk, cPipeEnv)]).tcpFramesOk = 1
      ∧ (runPipeline cPipeStart [(cPipeChunk, cPipeEnv)]).serialFrames = 0 :=
  ⟨claim_C10 true 0 [1] cPipeStart [(cPipeChunk, cPipeEnv)] cPipeStart (by decide),
   by decide, by decide⟩

end Bridge
